import Mathlib

/-!
# Targeting engine: shallow embedding and verification

This file embeds the targeting cache / matching engine of the
`target-engine` service (Go package `service`, together with its data
model from package `model`) into Lean, and proves properties of the
embedding.

Modelling conventions:
* Go strings are Lean `String`s; the Go standard-library helpers
  `strings.TrimSpace`, `strings.ToUpper`, `strings.ToLower` and
  `strings.EqualFold` are modelled character-wise over `String.data`
  using Lean's ASCII `Char.toUpper`/`Char.toLower`/`Char.isWhitespace`
  (the service's data — country codes, os names, app ids — is ASCII).
* Go maps are modelled as association lists `List (String × α)`;
  map iteration order, which Go leaves unspecified, is determinized as
  list order.
* A nil Go slice is modelled as `[]`; note that the query cache stores
  a possibly-nil slice, and the service distinguishes a nil cached
  value from an absent key only through the `cached != nil` test,
  which `[]` reproduces faithfully.
* `time.Time` values are modelled as `Nat` instants.
* Mutation of the service struct is modelled by explicit state passing
  on `EngineState`; the results of the two repository fetches used by
  `refreshCache` are passed in as `Except` values.
-/

/-! ## Go string helpers (ASCII model) -/

/-- Model of `strings.ToLower` (ASCII): lower-case every character. -/
def toLowerStr (s : String) : String :=
  ⟨s.data.map Char.toLower⟩

/-- Model of `strings.ToUpper` (ASCII): upper-case every character. -/
def toUpperStr (s : String) : String :=
  ⟨s.data.map Char.toUpper⟩

/-- Trim leading and trailing whitespace from a character list. -/
def trimChars (l : List Char) : List Char :=
  ((l.dropWhile Char.isWhitespace).reverse.dropWhile Char.isWhitespace).reverse

/-- Model of `strings.TrimSpace`: drop leading and trailing whitespace. -/
def trimSpace (s : String) : String :=
  ⟨trimChars s.data⟩

/-- Model of `strings.EqualFold` (ASCII): equality up to letter case. -/
def equalFold (a b : String) : Bool :=
  toLowerStr a == toLowerStr b

/-! ## Data model (package `model`) -/

/-- `model.Campaign`: an advertising campaign. -/
structure Campaign where
  id : String
  name : String
  image : String
  cta : String
  status : String
  createdAt : Nat
  updatedAt : Nat
deriving Repr, DecidableEq

/-- `model.TargetingRule`: targeting criteria for one campaign. -/
structure TargetingRule where
  id : Int
  campaignID : String
  includeCountry : List String
  excludeCountry : List String
  includeOS : List String
  excludeOS : List String
  includeApp : List String
  excludeApp : List String
  createdAt : Nat
  updatedAt : Nat
deriving Repr, DecidableEq

/-- `model.DeliveryRequest`: the incoming request parameters. -/
structure DeliveryRequest where
  app : String
  country : String
  os : String
deriving Repr, DecidableEq

/-- `model.DeliveryResponse`: the response for one matching campaign. -/
structure DeliveryResponse where
  cid : String
  image : String
  cta : String
deriving Repr, DecidableEq

/-- `model.StatusActive`. -/
def StatusActive : String := "ACTIVE"

/-- `Campaign.IsActive`: status equals `ACTIVE`. -/
def Campaign.IsActive (c : Campaign) : Bool :=
  c.status == StatusActive

/-- `Campaign.ToDeliveryResponse`: projection to the delivery response. -/
def Campaign.ToDeliveryResponse (c : Campaign) : DeliveryResponse :=
  { cid := c.id, image := c.image, cta := c.cta }

/-! ## Association lists as Go maps -/

/-- Remove every binding of key `k` (Go `delete`, given unique keys). -/
def eraseKey (k : String) (m : List (String × α)) : List (String × α) :=
  m.filter (fun p => p.1 != k)

/-- Go map assignment `m[k] = v`: bind `k` to `v`, dropping old bindings. -/
def mapInsert (k : String) (v : α) (m : List (String × α)) : List (String × α) :=
  (k, v) :: eraseKey k m

/-! ## Engine state (`TargetingService` / `targetingCache` / config) -/

/-- The mutable state of the `TargetingService`: the three cache maps of
`targetingCache`, the freshness timestamps, and the one configuration
field the service reads (`config.Cache.MaxSize`). -/
structure EngineState where
  campaigns : List (String × Campaign)
  targetingRules : List (String × List TargetingRule)
  queryCache : List (String × List DeliveryResponse)
  lastUpdate : Nat
  lastRefresh : Nat
  maxSize : Nat
deriving Repr, DecidableEq

/-! ## Matcher (`containsValue`, `matchesDimension`, `ruleMatches`,
`campaignMatches`, `findMatchingCampaigns`) -/

/-- `containsValue`: does `slice` contain `value`, comparing exactly when
`caseSensitive` and via `strings.EqualFold` otherwise? -/
def containsValue (slice : List String) (value : String) (caseSensitive : Bool) : Bool :=
  slice.any (fun item => if caseSensitive then item == value else equalFold item value)

/-- `matchesDimension`: exclusions checked first, then a non-empty include
list must contain the value; otherwise the dimension matches. -/
def matchesDimension (value : String) (includeList excludeList : List String)
    (caseSensitive : Bool) : Bool :=
  if 0 < excludeList.length then
    if containsValue excludeList value caseSensitive then false
    else if 0 < includeList.length then containsValue includeList value caseSensitive
    else true
  else if 0 < includeList.length then containsValue includeList value caseSensitive
  else true

/-- `ruleMatches`: all three dimensions must pass — country and app
case-sensitively, operating system case-insensitively. -/
def ruleMatches (rule : TargetingRule) (req : DeliveryRequest) : Bool :=
  matchesDimension req.country rule.includeCountry rule.excludeCountry true
    && matchesDimension req.os rule.includeOS rule.excludeOS false
    && matchesDimension req.app rule.includeApp rule.excludeApp true

/-- `campaignMatches`: a campaign with no rules (absent key or empty list)
matches everything; otherwise some rule must match. -/
def campaignMatches (rulesMap : List (String × List TargetingRule))
    (campaignID : String) (req : DeliveryRequest) : Bool :=
  match List.lookup campaignID rulesMap with
  | none => true
  | some rules =>
    if rules.length == 0 then true
    else rules.any (fun rule => ruleMatches rule req)

/-- `findMatchingCampaigns`: collect the delivery responses of the active
campaigns that match the request (map iteration determinized as list
order). -/
def findMatchingCampaigns (s : EngineState) (req : DeliveryRequest) :
    List DeliveryResponse :=
  s.campaigns.filterMap (fun p =>
    if p.2.IsActive && campaignMatches s.targetingRules p.1 req then
      some p.2.ToDeliveryResponse
    else none)

/-! ## Validation, normalization, cache key -/

/-- `validateRequest`: the `go-playground/validator` tag `required` on a
string field fails exactly when the field is the zero value `""`. -/
def validateRequest (req : DeliveryRequest) : Bool :=
  !(req.app == "") && !(req.country == "") && !(req.os == "")

/-- `normalizeRequest`: trim all fields and upper-case the country. -/
def normalizeRequest (req : DeliveryRequest) : DeliveryRequest :=
  { app := trimSpace req.app
    country := toUpperStr (trimSpace req.country)
    os := trimSpace req.os }

/-- `generateCacheKey`: `app|country|lowercase(os)`. -/
def generateCacheKey (req : DeliveryRequest) : String :=
  req.app ++ "|" ++ req.country ++ "|" ++ toLowerStr req.os

/-! ## Result cache (`getFromQueryCache`, `setToQueryCache`) -/

/-- `getFromQueryCache`: the stored result for `key`, or the nil slice
(modelled `[]`) when the key is absent. -/
def getFromQueryCache (qc : List (String × List DeliveryResponse))
    (key : String) : List DeliveryResponse :=
  match List.lookup key qc with
  | some result => result
  | none => []

/-- `setToQueryCache`: when the cache holds at least `maxSize` entries,
first delete the first entry encountered by the (unordered) scan —
a no-op on an empty cache — then store `result` under `key`. -/
def setToQueryCache (maxSize : Nat) (qc : List (String × List DeliveryResponse))
    (key : String) (result : List DeliveryResponse) :
    List (String × List DeliveryResponse) :=
  let qc' := if maxSize ≤ qc.length then qc.tail else qc
  mapInsert key result qc'

/-- State update performed by `s.setToQueryCache(key, result)`. -/
def putQueryCache (s : EngineState) (key : String)
    (result : List DeliveryResponse) : EngineState :=
  { s with queryCache := setToQueryCache s.maxSize s.queryCache key result }

/-! ## `GetMatchingCampaigns` -/

/-- Outcome of one `GetMatchingCampaigns` call: the returned response
list, the service state after the call, and — as instrumentation of the
control flow — whether the call was answered from the query cache
(the Go `cached != nil` branch) instead of a fresh matcher pass. -/
structure MatchOutcome where
  responses : List DeliveryResponse
  state : EngineState
  cacheHit : Bool
deriving Repr, DecidableEq

/-- `GetMatchingCampaigns`: validate, normalize, consult the query cache,
and on a miss run a matcher pass and cache its result. -/
def GetMatchingCampaigns (s : EngineState) (req : DeliveryRequest) :
    Except String MatchOutcome :=
  if validateRequest req then
    let normalizedReq := normalizeRequest req
    let cacheKey := generateCacheKey normalizedReq
    let cached := getFromQueryCache s.queryCache cacheKey
    if !cached.isEmpty then
      Except.ok { responses := cached, state := s, cacheHit := true }
    else
      let found := findMatchingCampaigns s normalizedReq
      Except.ok { responses := found
                  state := putQueryCache s cacheKey found
                  cacheHit := false }
  else
    Except.error ("Key: validation failed on the 'required' tag")

/-! ## Refresher (`refreshCache`) -/

/-- Group the fetched rules by campaign id, preserving order:
`m[rule.CampaignID] = append(m[rule.CampaignID], rule)`. -/
def appendRuleToGroup (m : List (String × List TargetingRule))
    (rule : TargetingRule) : List (String × List TargetingRule) :=
  mapInsert rule.campaignID (((List.lookup rule.campaignID m).getD []) ++ [rule]) m

/-- The rules map built by `refreshCache` from the fetched rule list. -/
def groupRules (rules : List TargetingRule) : List (String × List TargetingRule) :=
  rules.foldl appendRuleToGroup []

/-- The campaigns map built by `refreshCache` from the fetched campaigns. -/
def buildCampaignMap (campaigns : List Campaign) : List (String × Campaign) :=
  campaigns.foldl (fun m c => mapInsert c.id c m) []

/-- `refreshCache`: rebuild the campaign and rule maps from the two
repository fetches (passed in as their results) and clear the query
cache; on either fetch failing, report the wrapped error and leave the
state untouched. Returns the state after the call together with the
call's error result. -/
def refreshCache (s : EngineState)
    (campaignsRes : Except String (List Campaign))
    (rulesRes : Except String (List TargetingRule))
    (now : Nat) : EngineState × Except String Unit :=
  match campaignsRes with
  | Except.error e => (s, Except.error ("failed to get active campaigns: " ++ e))
  | Except.ok campaigns =>
    match rulesRes with
    | Except.error e => (s, Except.error ("failed to get targeting rules: " ++ e))
    | Except.ok rules =>
      ({ campaigns := buildCampaignMap campaigns
         targetingRules := groupRules rules
         queryCache := []
         lastUpdate := now
         lastRefresh := now
         maxSize := s.maxSize }, Except.ok ())

/-! ## Concrete data used by specific claims -/

/-- A rule whose include-country list contains only `Canada`. -/
def canadaRule : TargetingRule :=
  { id := 1, campaignID := "spotify", includeCountry := ["Canada"],
    excludeCountry := [], includeOS := [], excludeOS := [],
    includeApp := [], excludeApp := [], createdAt := 0, updatedAt := 0 }

/-! ## Claims about the matcher -/

/-- C1: the matcher agrees with the reference definition: a campaign with
no associated rules (absent key or empty list) matches unconditionally;
otherwise it matches iff at least one rule matches (OR across rules),
and a single rule matches iff all three dimensions pass (AND within a
rule). -/
theorem matcher_reference_definition
    (m : List (String × List TargetingRule)) (cid : String)
    (req : DeliveryRequest) :
    (campaignMatches m cid req = true ↔
      ((List.lookup cid m).getD [] = [] ∨
        ∃ r ∈ (List.lookup cid m).getD [], ruleMatches r req = true)) ∧
    (∀ rule, ruleMatches rule req = true ↔
      (matchesDimension req.country rule.includeCountry rule.excludeCountry true = true ∧
       matchesDimension req.os rule.includeOS rule.excludeOS false = true ∧
       matchesDimension req.app rule.includeApp rule.excludeApp true = true)) := by
  constructor
  · unfold campaignMatches
    cases h : List.lookup cid m with
    | none => simp
    | some rules =>
      cases rules with
      | nil => simp
      | cons r rs => simp [List.any_eq_true]
  · intro rule
    simp [ruleMatches, Bool.and_eq_true, and_assoc]

/-- C2: dimension semantics — an excluded value fails regardless of the
include list; otherwise a non-empty include list decides membership;
otherwise the dimension passes. -/
theorem dimension_check_semantics (v : String) (I E : List String) (cs : Bool) :
    (containsValue E v cs = true → matchesDimension v I E cs = false) ∧
    (containsValue E v cs = false → I ≠ [] →
      matchesDimension v I E cs = containsValue I v cs) ∧
    (containsValue E v cs = false → I = [] → matchesDimension v I E cs = true) := by
  refine ⟨?_, ?_, ?_⟩
  · intro h
    have hE : 0 < E.length := by
      cases E with
      | nil => simp [containsValue] at h
      | cons a t => simp
    simp [matchesDimension, hE, h]
  · intro h hI
    have hIlen : 0 < I.length := List.length_pos.mpr hI
    by_cases hE : 0 < E.length
    · simp [matchesDimension, hE, h, hIlen]
    · simp [matchesDimension, hE, hIlen]
  · intro h hI
    subst hI
    by_cases hE : 0 < E.length
    · simp [matchesDimension, hE, h]
    · simp [matchesDimension, hE]

/-- C2 witness: a value present in the exclude list fails its dimension. -/
theorem dimension_check_semantics_witness :
    matchesDimension "US" [] ["US"] true = false :=
  (dimension_check_semantics "US" [] ["US"] true).1 (by decide)

/-- C3: case discipline of membership tests — the case-sensitive mode is
exact string equality, the case-insensitive mode is equality up to ASCII
case; `ruleMatches` applies the case-sensitive mode to country and app
and the case-insensitive mode to the operating system; consequently a
request normalized from country `canada` (hence `CANADA`) does not match
a rule whose include-country list is exactly `Canada`. -/
theorem membership_case_discipline :
    (∀ (l : List String) (v : String), containsValue l v true = true ↔ v ∈ l) ∧
    (∀ (l : List String) (v : String),
      containsValue l v false = true ↔ ∃ u ∈ l, toLowerStr u = toLowerStr v) ∧
    (∀ (rule : TargetingRule) (req : DeliveryRequest),
      ruleMatches rule req =
        (matchesDimension req.country rule.includeCountry rule.excludeCountry true
          && matchesDimension req.os rule.includeOS rule.excludeOS false
          && matchesDimension req.app rule.includeApp rule.excludeApp true)) ∧
    ruleMatches canadaRule
      (normalizeRequest { app := "com.abc.xyz", country := "canada", os := "ios" }) = false := by
  refine ⟨?_, ?_, ?_, ?_⟩
  · intro l v
    simp [containsValue, List.any_eq_true, beq_iff_eq]
  · intro l v
    simp [containsValue, List.any_eq_true, equalFold, beq_iff_eq]
  · intro rule req
    rfl
  · decide

/-! ## Association-list lemmas -/

/-- Erasing a different key does not change a lookup. -/
theorem lookup_eraseKey_ne {α : Type} (k k' : String) (m : List (String × α))
    (h : k' ≠ k) : List.lookup k' (eraseKey k m) = List.lookup k' m := by
  induction m with
  | nil => rfl
  | cons p t ih =>
    rw [eraseKey, List.filter_cons]
    by_cases hp : p.1 = k
    · have hcond : (p.1 != k) = false := by simp [hp]
      have hk' : (k' == p.1) = false := by simp [hp, h]
      cases p with
      | mk a b =>
        simp only [hcond, Bool.false_eq_true, if_false, List.lookup_cons]
        simp only at hk'
        rw [hk']
        exact ih
    · have hcond : (p.1 != k) = true := by simp [hp]
      cases p with
      | mk a b =>
        simp only [hcond, if_true, List.lookup_cons]
        cases hak : (k' == a) with
        | true => rfl
        | false => exact ih

/-- Looking up the freshly inserted key yields the inserted value. -/
theorem lookup_mapInsert_self {α : Type} (k : String) (v : α)
    (m : List (String × α)) : List.lookup k (mapInsert k v m) = some v := by
  rw [mapInsert, List.lookup_cons]
  simp

/-- Looking up another key is unaffected by an insertion. -/
theorem lookup_mapInsert_ne {α : Type} (k k' : String) (v : α)
    (m : List (String × α)) (h : k' ≠ k) :
    List.lookup k' (mapInsert k v m) = List.lookup k' m := by
  rw [mapInsert, List.lookup_cons]
  have hk : (k' == k) = false := by simp [h]
  rw [hk]
  exact lookup_eraseKey_ne k k' m h

/-- Folding `appendRuleToGroup` appends, per campaign id, exactly the rules
carrying that id, in order. -/
theorem lookup_foldl_appendRuleToGroup (rules : List TargetingRule)
    (m : List (String × List TargetingRule)) (cid : String) :
    (List.lookup cid (rules.foldl appendRuleToGroup m)).getD [] =
      (List.lookup cid m).getD [] ++ rules.filter (fun r => r.campaignID == cid) := by
  induction rules generalizing m with
  | nil => simp
  | cons r rs ih =>
    rw [List.foldl_cons, ih, List.filter_cons]
    by_cases hc : r.campaignID = cid
    · have hcond : (r.campaignID == cid) = true := by simp [hc]
      rw [hcond]
      rw [appendRuleToGroup, ← hc, lookup_mapInsert_self]
      simp
    · have hcond : (r.campaignID == cid) = false := by simp [hc]
      rw [hcond]
      rw [appendRuleToGroup, lookup_mapInsert_ne _ _ _ _ (fun hh => hc hh.symm)]
      simp

/-- The grouped-rules map built by a refresh holds, for each campaign id,
exactly the fetched rules with that id, preserving multiplicity. -/
theorem lookup_groupRules (rules : List TargetingRule) (cid : String) :
    (List.lookup cid (groupRules rules)).getD [] =
      rules.filter (fun r => r.campaignID == cid) := by
  rw [groupRules, lookup_foldl_appendRuleToGroup]
  simp

/-! ## Concrete engine states used by witnesses and counterexamples -/

/-- An engine state with nothing cached and an ordinary capacity. -/
def engineState0 : EngineState :=
  { campaigns := [], targetingRules := [], queryCache := [],
    lastUpdate := 0, lastRefresh := 0, maxSize := 100 }

/-- A single active campaign used by concrete scenarios. -/
def campaignC1 : Campaign :=
  { id := "c1", name := "c1", image := "img1", cta := "go",
    status := "ACTIVE", createdAt := 0, updatedAt := 0 }

/-- A rule restricting `campaignC1` to country `US`. -/
def ruleUSOnly : TargetingRule :=
  { id := 7, campaignID := "c1", includeCountry := ["US"],
    excludeCountry := [], includeOS := [], excludeOS := [],
    includeApp := [], excludeApp := [], createdAt := 0, updatedAt := 0 }

/-- A state holding `campaignC1` restricted to country `US`. -/
def engineStateUS : EngineState :=
  { campaigns := [("c1", campaignC1)],
    targetingRules := [("c1", [ruleUSOnly])],
    queryCache := [], lastUpdate := 0, lastRefresh := 0, maxSize := 100 }

/-- The spec's no-match request. -/
def antarcticaReq : DeliveryRequest :=
  { app := "x", country := "antarctica", os := "windows" }

/-! ## Claims about refresh -/

/-- C6: when either repository fetch fails, `refreshCache` reports a
failure and the engine state — campaigns, rules, query cache and
timestamps — is exactly what it was before the call. -/
theorem refresh_failure_preserves_state (s : EngineState)
    (campaignsRes : Except String (List Campaign))
    (rulesRes : Except String (List TargetingRule)) (now : Nat)
    (h : campaignsRes.isOk = false ∨ rulesRes.isOk = false) :
    (refreshCache s campaignsRes rulesRes now).1 = s ∧
    (refreshCache s campaignsRes rulesRes now).2.isOk = false := by
  cases campaignsRes with
  | error e => exact ⟨rfl, rfl⟩
  | ok cs =>
    cases rulesRes with
    | error e => exact ⟨rfl, rfl⟩
    | ok rs =>
      rcases h with h | h <;> simp [Except.isOk, Except.toBool] at h

/-- C6 witness: a failing campaign fetch leaves a concrete state intact. -/
theorem refresh_failure_preserves_state_witness :
    (refreshCache engineStateUS (Except.error ("db down")) (Except.ok []) 5).1
      = engineStateUS ∧
    (refreshCache engineStateUS (Except.error ("db down")) (Except.ok []) 5).2.isOk
      = false :=
  refresh_failure_preserves_state engineStateUS (Except.error ("db down"))
    (Except.ok []) 5 (Or.inl rfl)

/-- C7: a successful refresh empties the result cache, and the installed
rules map groups the fetched rules by campaign id preserving
multiplicity and order. -/
theorem refresh_clears_cache_and_groups_rules (s : EngineState)
    (campaigns : List Campaign) (rules : List TargetingRule) (now : Nat) :
    ((refreshCache s (Except.ok campaigns) (Except.ok rules) now).1.queryCache = []) ∧
    (∀ cid,
      (List.lookup cid
        (refreshCache s (Except.ok campaigns) (Except.ok rules) now).1.targetingRules).getD []
        = rules.filter (fun r => r.campaignID == cid)) := by
  refine ⟨rfl, ?_⟩
  intro cid
  exact lookup_groupRules rules cid

/-! ## Claims about the result cache -/

/-- C8 (amended): a `Put` removes the head of the scan exactly when the
cache already holds at least `maxSize` entries (a no-op when it is also
empty); with a positive capacity, a cache within its bound stays within
its bound. -/
theorem result_cache_eviction_and_bound (maxSize : Nat)
    (qc : List (String × List DeliveryResponse)) (key : String)
    (result : List DeliveryResponse) :
    (qc.length < maxSize →
      setToQueryCache maxSize qc key result = mapInsert key result qc) ∧
    (maxSize ≤ qc.length →
      setToQueryCache maxSize qc key result = mapInsert key result qc.tail) ∧
    (1 ≤ maxSize → qc.length ≤ maxSize →
      (setToQueryCache maxSize qc key result).length ≤ maxSize) := by
  have hlen : ∀ (l : List (String × List DeliveryResponse)),
      (mapInsert key result l).length ≤ l.length + 1 := by
    intro l
    simp only [mapInsert, List.length_cons, eraseKey, Nat.add_le_add_iff_right]
    exact List.length_filter_le _ l
  refine ⟨?_, ?_, ?_⟩
  · intro h
    simp [setToQueryCache, Nat.not_le.mpr h]
  · intro h
    simp [setToQueryCache, h]
  · intro h1 h2
    by_cases h : maxSize ≤ qc.length
    · have h3 := hlen qc.tail
      simp only [setToQueryCache, h, if_true]
      have h4 : qc.tail.length = qc.length - 1 := List.length_tail qc
      omega
    · have h3 := hlen qc
      simp only [setToQueryCache, h, if_false]
      omega

/-- C8 witness: below capacity, a `Put` is a plain insertion. -/
theorem result_cache_eviction_and_bound_witness :
    setToQueryCache 2 [(("a"), ([] : List DeliveryResponse))] ("b") []
      = mapInsert ("b") [] [(("a"), [])] :=
  (result_cache_eviction_and_bound 2 [(("a"), [])] ("b") []).1 (by decide)

/-- C8 counterexample: with configured maximum 0 a `Put` into the empty
cache evicts nothing (there is nothing to scan) although the insertion
exceeds the maximum, and the resulting size 1 exceeds the configured
maximum. -/
theorem result_cache_bound_counterexample :
    (setToQueryCache 0 [] ("k") ([] : List DeliveryResponse)).length = 1 ∧
    ¬((setToQueryCache 0 [] ("k") ([] : List DeliveryResponse)).length ≤ 0) := by
  decide

/-! ## Claims about validation and the no-match outcome -/

/-- C5 (amended): a request with a field that is the empty string is
rejected with the validation error before any cache lookup, matcher
pass or result-cache insertion (the call returns the error and nothing
else happens to the state). -/
theorem empty_field_rejected (s : EngineState) (req : DeliveryRequest)
    (h : req.app = "" ∨ req.country = "" ∨ req.os = "") :
    GetMatchingCampaigns s req =
      Except.error ("Key: validation failed on the 'required' tag") := by
  have hv : validateRequest req = false := by
    rcases h with h | h | h <;> simp [validateRequest, h]
  simp [GetMatchingCampaigns, hv]

/-- C5 witness: a request with an empty country is rejected. -/
theorem empty_field_rejected_witness :
    GetMatchingCampaigns engineStateUS
      { app := "com.abc.xyz", country := "", os := "android" } =
      Except.error ("Key: validation failed on the 'required' tag") :=
  empty_field_rejected engineStateUS
    { app := "com.abc.xyz", country := "", os := "android" }
    (Or.inr (Or.inl rfl))

/-- C5 counterexample: a request whose app is whitespace-only (empty after
trimming) is not rejected: it passes validation, runs a matcher pass
(no cache hit) and inserts a result-cache entry. -/
theorem whitespace_only_field_not_rejected :
    ((GetMatchingCampaigns engineState0
        { app := " ", country := "US", os := "android" }).map
      (fun r => (r.cacheHit, r.state.queryCache.length))) =
      Except.ok (false, 1) := by
  rfl

/-- C9: a valid request that no active campaign matches (and that has no
non-nil cached entry) succeeds with the empty result list — it is not
an error. -/
theorem no_match_is_success (s : EngineState) (req : DeliveryRequest)
    (hv : validateRequest req = true)
    (hcache : getFromQueryCache s.queryCache
      (generateCacheKey (normalizeRequest req)) = [])
    (hmatch : ∀ p ∈ s.campaigns, p.2.IsActive = true →
      campaignMatches s.targetingRules p.1 (normalizeRequest req) = false) :
    GetMatchingCampaigns s req =
      Except.ok { responses := []
                  state := putQueryCache s
                    (generateCacheKey (normalizeRequest req)) []
                  cacheHit := false } := by
  have hfind : findMatchingCampaigns s (normalizeRequest req) = [] := by
    unfold findMatchingCampaigns
    rw [List.filterMap_eq_nil_iff]
    intro p hp
    by_cases ha : p.2.IsActive = true
    · have hm := hmatch p hp ha
      simp [ha, hm]
    · have ha' : p.2.IsActive = false := by
        cases hb : p.2.IsActive with
        | true => exact absurd hb ha
        | false => rfl
      simp [ha']
  simp [GetMatchingCampaigns, hv, hcache, hfind]

/-- C9 witness: the spec's no-match request against a state with one
active `US`-only campaign succeeds with the empty list. -/
theorem no_match_is_success_witness :
    GetMatchingCampaigns engineStateUS antarcticaReq =
      Except.ok { responses := []
                  state := putQueryCache engineStateUS
                    (generateCacheKey (normalizeRequest antarcticaReq)) []
                  cacheHit := false } :=
  no_match_is_success engineStateUS antarcticaReq rfl rfl (by decide)

/-! ## Claims about call-to-call behaviour (`GetMatchingCampaigns`) -/

/-- Reading back the key just stored by a `Put` yields the stored result,
whatever eviction did. -/
theorem getFromQueryCache_setToQueryCache (maxSize : Nat)
    (qc : List (String × List DeliveryResponse)) (key : String)
    (result : List DeliveryResponse) :
    getFromQueryCache (setToQueryCache maxSize qc key result) key = result := by
  simp only [setToQueryCache]
  rw [getFromQueryCache, lookup_mapInsert_self]

/-- A result-cache write does not change the snapshot the matcher reads. -/
theorem findMatchingCampaigns_putQueryCache (s : EngineState) (key : String)
    (result : List DeliveryResponse) (req : DeliveryRequest) :
    findMatchingCampaigns (putQueryCache s key result) req =
      findMatchingCampaigns s req := rfl

/-- C4 (amended): two consecutive calls with the identical request and no
intervening refresh always return identical result lists, and when the
first call's result list is non-empty the second call is answered from
the result-cache entry stored by the first (cache hit, state unchanged).
When the result list is empty the stored entry is the nil slice, the
`cached != nil` test fails, and the matcher runs again (see the
counterexample) — still returning the identical empty list. -/
theorem second_call_idempotent (s : EngineState) (req : DeliveryRequest)
    (r1 : MatchOutcome) (h1 : GetMatchingCampaigns s req = Except.ok r1) :
    ((GetMatchingCampaigns r1.state req).map (fun r => r.responses) =
      Except.ok r1.responses) ∧
    (r1.responses ≠ [] →
      GetMatchingCampaigns r1.state req =
        Except.ok { responses := r1.responses, state := r1.state,
                    cacheHit := true }) := by
  have hv : validateRequest req = true := by
    cases hb : validateRequest req with
    | true => rfl
    | false =>
      rw [GetMatchingCampaigns] at h1
      simp [hb] at h1
  rw [GetMatchingCampaigns] at h1
  simp only [hv, if_true] at h1
  cases hc : (getFromQueryCache s.queryCache
      (generateCacheKey (normalizeRequest req))).isEmpty with
  | false =>
    simp only [hc, Bool.not_false, if_true] at h1
    injection h1 with h1
    subst h1
    constructor
    · rw [GetMatchingCampaigns]
      simp only [hv, if_true, hc, Bool.not_false]
      rfl
    · intro _
      rw [GetMatchingCampaigns]
      simp only [hv, if_true, hc, Bool.not_false]
  | true =>
    simp only [hc, Bool.not_true, Bool.false_eq_true, if_false] at h1
    injection h1 with h1
    subst h1
    have hstate : (putQueryCache s (generateCacheKey (normalizeRequest req))
        (findMatchingCampaigns s (normalizeRequest req))).queryCache =
        setToQueryCache s.maxSize s.queryCache
          (generateCacheKey (normalizeRequest req))
          (findMatchingCampaigns s (normalizeRequest req)) := rfl
    cases hf : (findMatchingCampaigns s (normalizeRequest req)).isEmpty with
    | false =>
      constructor
      · rw [GetMatchingCampaigns]
        simp only [hv, if_true, hstate, getFromQueryCache_setToQueryCache, hf,
          Bool.not_false, if_true]
        rfl
      · intro _
        rw [GetMatchingCampaigns]
        simp only [hv, if_true, hstate, getFromQueryCache_setToQueryCache, hf,
          Bool.not_false]
    | true =>
      have hf2 : findMatchingCampaigns s (normalizeRequest req) = [] :=
        List.isEmpty_iff.mp hf
      constructor
      · rw [GetMatchingCampaigns]
        simp only [hv, if_true, hstate, getFromQueryCache_setToQueryCache, hf,
          Bool.not_true, Bool.false_eq_true, if_false]
        show Except.ok (findMatchingCampaigns _ _) = _
        rw [findMatchingCampaigns_putQueryCache]
      · intro hne
        exact absurd hf2 hne

/-- C4 counterexample: for a valid request with zero matches, the second
identical call returns the identical (empty) list but is *not* answered
from the cache — the stored nil slice fails the `cached != nil` test and
a fresh matcher pass runs. -/
theorem second_call_not_cache_hit_counterexample :
    ((do
        let r1 ← GetMatchingCampaigns engineState0 antarcticaReq
        let r2 ← GetMatchingCampaigns r1.state antarcticaReq
        pure (r1.responses == r2.responses, r2.cacheHit)) :
      Except String (Bool × Bool)) = Except.ok (true, false) := by
  rfl

/-- Request used by the C4 witness. -/
def usReq : DeliveryRequest := { app := "a", country := "US", os := "ios" }

/-- Outcome of the first `GetMatchingCampaigns engineStateUS usReq` call. -/
def usFirstOutcome : MatchOutcome :=
  { responses := [{ cid := "c1", image := "img1", cta := "go" }]
    state := putQueryCache engineStateUS
      (generateCacheKey (normalizeRequest usReq))
      [{ cid := "c1", image := "img1", cta := "go" }]
    cacheHit := false }

/-- C4 witness: after a first call with a non-empty result, the second
identical call is a cache hit returning the same list. -/
theorem second_call_idempotent_witness :
    GetMatchingCampaigns usFirstOutcome.state usReq =
      Except.ok { responses := usFirstOutcome.responses
                  state := usFirstOutcome.state
                  cacheHit := true } :=
  (second_call_idempotent engineStateUS usReq usFirstOutcome (by rfl)).2
    (by decide)

/-! ## Character-case lemmas for the normalization claims -/

/-- `Char.ofNat` on a value below the surrogate range keeps its code. -/
theorem char_toNat_ofNat_valid (n : Nat) (h : n < 55296) :
    (Char.ofNat n).toNat = n := by
  have hv : n.isValidChar := Or.inl h
  rw [Char.ofNat, dif_pos hv]
  rfl

/-- Characters with equal codes are equal. -/
theorem char_eq_of_toNat_eq (a b : Char) (h : a.toNat = b.toNat) : a = b := by
  rw [← Char.ofNat_toNat a, ← Char.ofNat_toNat b, h]

/-- The code of `Char.toLower`, arithmetically. -/
theorem toNat_toLower (c : Char) :
    (Char.toLower c).toNat =
      if 65 ≤ c.toNat ∧ c.toNat ≤ 90 then c.toNat + 32 else c.toNat := by
  unfold Char.toLower
  split
  · rename_i h
    rw [if_pos ⟨h.1, h.2⟩]
    exact char_toNat_ofNat_valid _ (by omega)
  · rename_i h
    rw [if_neg h]

/-- The code of `Char.toUpper`, arithmetically. -/
theorem toNat_toUpper (c : Char) :
    (Char.toUpper c).toNat =
      if 97 ≤ c.toNat ∧ c.toNat ≤ 122 then c.toNat - 32 else c.toNat := by
  unfold Char.toUpper
  split
  · rename_i h
    rw [if_pos ⟨h.1, h.2⟩]
    exact char_toNat_ofNat_valid _ (by omega)
  · rename_i h
    rw [if_neg h]

/-- Whitespace, arithmetically. -/
theorem isWhitespace_toNat (c : Char) :
    c.isWhitespace =
      decide (c.toNat = 32 ∨ c.toNat = 9 ∨ c.toNat = 13 ∨ c.toNat = 10) := by
  have h1 : (c = ' ') ↔ c.toNat = 32 :=
    ⟨fun h => by rw [h]; rfl, fun h => char_eq_of_toNat_eq _ _ h⟩
  have h2 : (c = '\t') ↔ c.toNat = 9 :=
    ⟨fun h => by rw [h]; rfl, fun h => char_eq_of_toNat_eq _ _ h⟩
  have h3 : (c = '\r') ↔ c.toNat = 13 :=
    ⟨fun h => by rw [h]; rfl, fun h => char_eq_of_toNat_eq _ _ h⟩
  have h4 : (c = '\n') ↔ c.toNat = 10 :=
    ⟨fun h => by rw [h]; rfl, fun h => char_eq_of_toNat_eq _ _ h⟩
  simp only [Char.isWhitespace, h1, h2, h3, h4, Bool.decide_or, Bool.or_assoc]

/-- Two characters agreeing after both case maps agree on whitespace. -/
theorem isWhitespace_eq_of_case_eq (a b : Char)
    (hU : a.toUpper = b.toUpper) (hL : a.toLower = b.toLower) :
    a.isWhitespace = b.isWhitespace := by
  have hU' := congrArg Char.toNat hU
  have hL' := congrArg Char.toNat hL
  rw [toNat_toUpper, toNat_toUpper] at hU'
  rw [toNat_toLower, toNat_toLower] at hL'
  rw [isWhitespace_toNat, isWhitespace_toNat, decide_eq_decide]
  split_ifs at hU' hL' <;> omega

/-- Character lists that agree after both case maps. -/
def caseVariantL (l1 l2 : List Char) : Prop :=
  l1.map Char.toUpper = l2.map Char.toUpper ∧
  l1.map Char.toLower = l2.map Char.toLower

/-- Dropping leading whitespace preserves `caseVariantL`. -/
theorem caseVariantL_dropWhile (l1 l2 : List Char) (h : caseVariantL l1 l2) :
    caseVariantL (l1.dropWhile Char.isWhitespace)
      (l2.dropWhile Char.isWhitespace) := by
  induction l1 generalizing l2 with
  | nil =>
    have h1 := h.1
    simp only [List.map_nil] at h1
    have : l2 = [] := by
      cases l2 with
      | nil => rfl
      | cons b t => simp at h1
    subst this
    exact h
  | cons a t1 ih =>
    cases l2 with
    | nil =>
      have h1 := h.1
      simp at h1
    | cons b t2 =>
      obtain ⟨hU, hL⟩ := h
      simp only [List.map_cons, List.cons.injEq] at hU hL
      have hws := isWhitespace_eq_of_case_eq a b hU.1 hL.1
      rw [List.dropWhile_cons, List.dropWhile_cons, ← hws]
      cases hw : a.isWhitespace with
      | true =>
        simp only [if_true]
        exact ih t2 ⟨hU.2, hL.2⟩
      | false =>
        simp only [Bool.false_eq_true, if_false]
        exact ⟨by simp [hU.1, hU.2], by simp [hL.1, hL.2]⟩

/-- Reversal preserves `caseVariantL`. -/
theorem caseVariantL_reverse (l1 l2 : List Char) (h : caseVariantL l1 l2) :
    caseVariantL l1.reverse l2.reverse := by
  refine ⟨?_, ?_⟩
  · rw [List.map_reverse, List.map_reverse, h.1]
  · rw [List.map_reverse, List.map_reverse, h.2]

/-- Trimming preserves `caseVariantL`. -/
theorem caseVariantL_trimChars (l1 l2 : List Char) (h : caseVariantL l1 l2) :
    caseVariantL (trimChars l1) (trimChars l2) :=
  caseVariantL_reverse _ _
    (caseVariantL_dropWhile _ _
      (caseVariantL_reverse _ _ (caseVariantL_dropWhile _ _ h)))

/-- Strings that differ only in ASCII letter case: both the upper-cased and
the lower-cased forms agree. -/
def caseVariant (s t : String) : Prop :=
  toUpperStr s = toUpperStr t ∧ toLowerStr s = toLowerStr t

/-- `caseVariant` at the character-list level. -/
theorem caseVariantL_of_caseVariant (s t : String) (h : caseVariant s t) :
    caseVariantL s.data t.data :=
  ⟨congrArg String.data h.1, congrArg String.data h.2⟩

/-- Upper-casing after trimming is invariant under letter-case changes. -/
theorem toUpperStr_trimSpace_congr (s t : String) (h : caseVariant s t) :
    toUpperStr (trimSpace s) = toUpperStr (trimSpace t) :=
  congrArg String.mk
    (caseVariantL_trimChars _ _ (caseVariantL_of_caseVariant s t h)).1

/-- Lower-casing after trimming is invariant under letter-case changes. -/
theorem toLowerStr_trimSpace_congr (s t : String) (h : caseVariant s t) :
    toLowerStr (trimSpace s) = toLowerStr (trimSpace t) :=
  congrArg String.mk
    (caseVariantL_trimChars _ _ (caseVariantL_of_caseVariant s t h)).2

/-! ## Request-case invariance of matching -/

/-- Case-insensitive membership only sees the lower-cased value. -/
theorem containsValue_fold_congr (l : List String) (v1 v2 : String)
    (h : toLowerStr v1 = toLowerStr v2) :
    containsValue l v1 false = containsValue l v2 false := by
  induction l with
  | nil => rfl
  | cons x xs ih =>
    simp only [containsValue, List.any_cons] at *
    rw [ih]
    congr 1
    simp [equalFold, h]

/-- The OS dimension only sees the lower-cased request value. -/
theorem matchesDimension_fold_congr (v1 v2 : String) (I E : List String)
    (h : toLowerStr v1 = toLowerStr v2) :
    matchesDimension v1 I E false = matchesDimension v2 I E false := by
  unfold matchesDimension
  rw [containsValue_fold_congr E v1 v2 h, containsValue_fold_congr I v1 v2 h]

/-- Rule evaluation is determined by the app, the country, and the
lower-cased OS of the request. -/
theorem ruleMatches_congr (rule : TargetingRule) (r1 r2 : DeliveryRequest)
    (happ : r1.app = r2.app) (hcountry : r1.country = r2.country)
    (hos : toLowerStr r1.os = toLowerStr r2.os) :
    ruleMatches rule r1 = ruleMatches rule r2 := by
  unfold ruleMatches
  rw [happ, hcountry, matchesDimension_fold_congr _ _ _ _ hos]

/-- Campaign evaluation is determined by the app, the country, and the
lower-cased OS of the request. -/
theorem campaignMatches_congr (m : List (String × List TargetingRule))
    (cid : String) (r1 r2 : DeliveryRequest)
    (happ : r1.app = r2.app) (hcountry : r1.country = r2.country)
    (hos : toLowerStr r1.os = toLowerStr r2.os) :
    campaignMatches m cid r1 = campaignMatches m cid r2 := by
  unfold campaignMatches
  cases List.lookup cid m with
  | none => rfl
  | some rules =>
    cases hl : rules.length == 0 with
    | true => simp [hl]
    | false =>
      simp only [hl, Bool.false_eq_true, if_false]
      induction rules with
      | nil => rfl
      | cons r rs ih =>
        simp only [List.any_cons]
        rw [ruleMatches_congr r r1 r2 happ hcountry hos]
        congr 1
        cases rs with
        | nil => rfl
        | cons r' rs' => exact ih rfl

/-- A full matcher pass is determined by the app, the country, and the
lower-cased OS of the request. -/
theorem findMatchingCampaigns_congr (s : EngineState) (r1 r2 : DeliveryRequest)
    (happ : r1.app = r2.app) (hcountry : r1.country = r2.country)
    (hos : toLowerStr r1.os = toLowerStr r2.os) :
    findMatchingCampaigns s r1 = findMatchingCampaigns s r2 := by
  unfold findMatchingCampaigns
  induction s.campaigns with
  | nil => rfl
  | cons p t ih =>
    simp only [List.filterMap_cons]
    rw [campaignMatches_congr s.targetingRules p.1 r1 r2 happ hcountry hos]
    cases p.2.IsActive && campaignMatches s.targetingRules p.1 r2 with
    | true => simp only [if_true]; rw [ih]
    | false => simp only [Bool.false_eq_true, if_false]; exact ih

/-- C10: two valid requests with the same app whose country and OS differ
only in letter case produce the same cache key and the very same
`GetMatchingCampaigns` outcome (responses, state and cache-hit flag):
normalization upper-cases the country, the cache key lower-cases the OS,
and OS matching is case-insensitive. -/
theorem case_variant_requests_equivalent (s : EngineState)
    (r1 r2 : DeliveryRequest) (happ : r1.app = r2.app)
    (hcountry : caseVariant r1.country r2.country)
    (hos : caseVariant r1.os r2.os)
    (hv1 : validateRequest r1 = true) (hv2 : validateRequest r2 = true) :
    generateCacheKey (normalizeRequest r1) =
      generateCacheKey (normalizeRequest r2) ∧
    GetMatchingCampaigns s r1 = GetMatchingCampaigns s r2 := by
  have hnapp : (normalizeRequest r1).app = (normalizeRequest r2).app := by
    show trimSpace r1.app = trimSpace r2.app
    rw [happ]
  have hncountry : (normalizeRequest r1).country = (normalizeRequest r2).country :=
    toUpperStr_trimSpace_congr _ _ hcountry
  have hnos : toLowerStr (normalizeRequest r1).os =
      toLowerStr (normalizeRequest r2).os :=
    toLowerStr_trimSpace_congr _ _ hos
  have hkey : generateCacheKey (normalizeRequest r1) =
      generateCacheKey (normalizeRequest r2) := by
    unfold generateCacheKey
    rw [hnapp, hncountry, hnos]
  have hfind : findMatchingCampaigns s (normalizeRequest r1) =
      findMatchingCampaigns s (normalizeRequest r2) :=
    findMatchingCampaigns_congr s _ _ hnapp hncountry hnos
  refine ⟨hkey, ?_⟩
  rw [GetMatchingCampaigns, GetMatchingCampaigns]
  simp only [hv1, hv2, if_true, hkey, hfind]

/-- First request of the C10 witness pair. -/
def caseReqA : DeliveryRequest := { app := "a", country := "us", os := "Ios" }

/-- Second request of the C10 witness pair. -/
def caseReqB : DeliveryRequest := { app := "a", country := "US", os := "ios" }

/-- C10 witness: the concrete case-variant pair agrees on key and outcome. -/
theorem case_variant_requests_equivalent_witness :
    generateCacheKey (normalizeRequest caseReqA) =
      generateCacheKey (normalizeRequest caseReqB) ∧
    GetMatchingCampaigns engineStateUS caseReqA =
      GetMatchingCampaigns engineStateUS caseReqB :=
  case_variant_requests_equivalent engineStateUS caseReqA caseReqB rfl
    ⟨rfl, rfl⟩ ⟨rfl, rfl⟩ rfl rfl
